import Mathlib

/-!
# Verification of the `pyact` actor runtime against its specification

Shallow embedding of `src/pyact/shape.py` and `src/pyact/actor.py`.
Python values that can travel in messages (JSON values, `Address`,
`Binary`, plus the classes used as type tokens in shape patterns) are
embedded as the inductive type `PyVal`.  Python dictionaries are embedded
as association lists with distinct keys; Python object identity is
embedded as an explicit `objId : Nat` tag on `Address` objects, since
`Address` defines no custom equality and therefore compares by identity.
Floating point values never occur in the claims and are omitted.
-/

namespace Pyact

/-- The Python classes that occur as type tokens in shapes and as results
of `type(...)` in `shape.py` (`NoneType`, `bool`, `int`, `str`/`unicode`,
`list`, `tuple`, `set`, `dict`, `Address`, `Binary`, `type`, `object`).
Following the Python 2 preamble of `is_shaped_exc`, `str` and `unicode`
are identified as the single token `tStr`. -/
inductive PyType where
  | tNone | tBool | tInt | tStr | tList | tTuple | tSet | tDict
  | tAddr | tBin | tType | tObject
deriving DecidableEq, Repr

/-- The identity of one `Actor` object as far as addressing is concerned:
its `actor_id` string, its `dead` flag (the greenlet has finished), and
the object identity of the single cached `Address` produced by the lazy
`address` property (`actor.py` line 368). -/
structure ActorRec where
  actorId : String
  dead : Bool
  addrObjId : Nat
deriving DecidableEq, Repr

/-- An `Address` object: a weak reference to an actor (`none` once the
referent is collected) together with its own object identity.  `Address`
defines no custom `eq`, so two addresses are Python-equal iff they
have the same `objId`. -/
structure AddressObj where
  objId : Nat
  target : Option ActorRec
deriving DecidableEq, Repr

/-- The single cached `Address` of an actor (the `address` lazy property). -/
def canonAddr (r : ActorRec) : AddressObj :=
  ⟨r.addrObjId, some r⟩

/-- Transportable Python values: the JSON core plus `tuple`, `set`,
`Address`, `Binary`, and class objects (type tokens, which occur in shape
patterns such as `CALL_PATTERN`).  Dictionaries are association lists. -/
inductive PyVal where
  | vnone
  | vbool (b : Bool)
  | vint (n : Int)
  | vstr (s : String)
  | vlist (xs : List PyVal)
  | vtuple (xs : List PyVal)
  | vset (xs : List PyVal)
  | vdict (kvs : List (PyVal × PyVal))
  | vaddr (a : AddressObj)
  | vbin (b : String)
  | vty (t : PyType)

mutual
/-- Structural equality on embedded values, mirroring Python equality on
the value kinds that can meet with equal type in the literal branch of
the matcher (`Address` compares by object identity, which the `objId`
field represents). -/
def pbeq : PyVal → PyVal → Bool
  | .vnone, .vnone => true
  | .vbool a, .vbool b => a == b
  | .vint a, .vint b => a == b
  | .vstr a, .vstr b => a == b
  | .vlist xs, .vlist ys => pbeqL xs ys
  | .vtuple xs, .vtuple ys => pbeqL xs ys
  | .vset xs, .vset ys => pbeqL xs ys
  | .vdict ks, .vdict ls => pbeqK ks ls
  | .vaddr a, .vaddr b => a == b
  | .vbin a, .vbin b => a == b
  | .vty a, .vty b => a == b
  | _, _ => false
/-- `pbeq` on lists of values. -/
def pbeqL : List PyVal → List PyVal → Bool
  | [], [] => true
  | x :: xs, y :: ys => pbeq x y && pbeqL xs ys
  | _, _ => false
/-- `pbeq` on association lists. -/
def pbeqK : List (PyVal × PyVal) → List (PyVal × PyVal) → Bool
  | [], [] => true
  | (k, v) :: xs, (l, w) :: ys => pbeq k l && pbeq v w && pbeqK xs ys
  | _, _ => false
end

mutual
/-- `pbeq` is sound for propositional equality. -/
theorem eq_of_pbeq : ∀ a b : PyVal, pbeq a b = true → a = b
  | .vnone, .vnone, _ => rfl
  | .vbool a, .vbool b, h => by
      simp only [pbeq] at h; rw [eq_of_beq h]
  | .vint a, .vint b, h => by
      simp only [pbeq] at h; rw [eq_of_beq h]
  | .vstr a, .vstr b, h => by
      simp only [pbeq] at h; rw [eq_of_beq h]
  | .vlist xs, .vlist ys, h => by
      simp only [pbeq] at h; rw [eq_of_pbeqL xs ys h]
  | .vtuple xs, .vtuple ys, h => by
      simp only [pbeq] at h; rw [eq_of_pbeqL xs ys h]
  | .vset xs, .vset ys, h => by
      simp only [pbeq] at h; rw [eq_of_pbeqL xs ys h]
  | .vdict ks, .vdict ls, h => by
      simp only [pbeq] at h; rw [eq_of_pbeqK ks ls h]
  | .vaddr a, .vaddr b, h => by
      simp only [pbeq] at h; rw [eq_of_beq h]
  | .vbin a, .vbin b, h => by
      simp only [pbeq] at h; rw [eq_of_beq h]
  | .vty a, .vty b, h => by
      simp only [pbeq] at h; rw [eq_of_beq h]
  | .vnone, .vbool _, h => by simp [pbeq] at h
  | .vnone, .vint _, h => by simp [pbeq] at h
  | .vnone, .vstr _, h => by simp [pbeq] at h
  | .vnone, .vlist _, h => by simp [pbeq] at h
  | .vnone, .vtuple _, h => by simp [pbeq] at h
  | .vnone, .vset _, h => by simp [pbeq] at h
  | .vnone, .vdict _, h => by simp [pbeq] at h
  | .vnone, .vaddr _, h => by simp [pbeq] at h
  | .vnone, .vbin _, h => by simp [pbeq] at h
  | .vnone, .vty _, h => by simp [pbeq] at h
  | .vbool _, .vnone, h => by simp [pbeq] at h
  | .vbool _, .vint _, h => by simp [pbeq] at h
  | .vbool _, .vstr _, h => by simp [pbeq] at h
  | .vbool _, .vlist _, h => by simp [pbeq] at h
  | .vbool _, .vtuple _, h => by simp [pbeq] at h
  | .vbool _, .vset _, h => by simp [pbeq] at h
  | .vbool _, .vdict _, h => by simp [pbeq] at h
  | .vbool _, .vaddr _, h => by simp [pbeq] at h
  | .vbool _, .vbin _, h => by simp [pbeq] at h
  | .vbool _, .vty _, h => by simp [pbeq] at h
  | .vint _, .vnone, h => by simp [pbeq] at h
  | .vint _, .vbool _, h => by simp [pbeq] at h
  | .vint _, .vstr _, h => by simp [pbeq] at h
  | .vint _, .vlist _, h => by simp [pbeq] at h
  | .vint _, .vtuple _, h => by simp [pbeq] at h
  | .vint _, .vset _, h => by simp [pbeq] at h
  | .vint _, .vdict _, h => by simp [pbeq] at h
  | .vint _, .vaddr _, h => by simp [pbeq] at h
  | .vint _, .vbin _, h => by simp [pbeq] at h
  | .vint _, .vty _, h => by simp [pbeq] at h
  | .vstr _, .vnone, h => by simp [pbeq] at h
  | .vstr _, .vbool _, h => by simp [pbeq] at h
  | .vstr _, .vint _, h => by simp [pbeq] at h
  | .vstr _, .vlist _, h => by simp [pbeq] at h
  | .vstr _, .vtuple _, h => by simp [pbeq] at h
  | .vstr _, .vset _, h => by simp [pbeq] at h
  | .vstr _, .vdict _, h => by simp [pbeq] at h
  | .vstr _, .vaddr _, h => by simp [pbeq] at h
  | .vstr _, .vbin _, h => by simp [pbeq] at h
  | .vstr _, .vty _, h => by simp [pbeq] at h
  | .vlist _, .vnone, h => by simp [pbeq] at h
  | .vlist _, .vbool _, h => by simp [pbeq] at h
  | .vlist _, .vint _, h => by simp [pbeq] at h
  | .vlist _, .vstr _, h => by simp [pbeq] at h
  | .vlist _, .vtuple _, h => by simp [pbeq] at h
  | .vlist _, .vset _, h => by simp [pbeq] at h
  | .vlist _, .vdict _, h => by simp [pbeq] at h
  | .vlist _, .vaddr _, h => by simp [pbeq] at h
  | .vlist _, .vbin _, h => by simp [pbeq] at h
  | .vlist _, .vty _, h => by simp [pbeq] at h
  | .vtuple _, .vnone, h => by simp [pbeq] at h
  | .vtuple _, .vbool _, h => by simp [pbeq] at h
  | .vtuple _, .vint _, h => by simp [pbeq] at h
  | .vtuple _, .vstr _, h => by simp [pbeq] at h
  | .vtuple _, .vlist _, h => by simp [pbeq] at h
  | .vtuple _, .vset _, h => by simp [pbeq] at h
  | .vtuple _, .vdict _, h => by simp [pbeq] at h
  | .vtuple _, .vaddr _, h => by simp [pbeq] at h
  | .vtuple _, .vbin _, h => by simp [pbeq] at h
  | .vtuple _, .vty _, h => by simp [pbeq] at h
  | .vset _, .vnone, h => by simp [pbeq] at h
  | .vset _, .vbool _, h => by simp [pbeq] at h
  | .vset _, .vint _, h => by simp [pbeq] at h
  | .vset _, .vstr _, h => by simp [pbeq] at h
  | .vset _, .vlist _, h => by simp [pbeq] at h
  | .vset _, .vtuple _, h => by simp [pbeq] at h
  | .vset _, .vdict _, h => by simp [pbeq] at h
  | .vset _, .vaddr _, h => by simp [pbeq] at h
  | .vset _, .vbin _, h => by simp [pbeq] at h
  | .vset _, .vty _, h => by simp [pbeq] at h
  | .vdict _, .vnone, h => by simp [pbeq] at h
  | .vdict _, .vbool _, h => by simp [pbeq] at h
  | .vdict _, .vint _, h => by simp [pbeq] at h
  | .vdict _, .vstr _, h => by simp [pbeq] at h
  | .vdict _, .vlist _, h => by simp [pbeq] at h
  | .vdict _, .vtuple _, h => by simp [pbeq] at h
  | .vdict _, .vset _, h => by simp [pbeq] at h
  | .vdict _, .vaddr _, h => by simp [pbeq] at h
  | .vdict _, .vbin _, h => by simp [pbeq] at h
  | .vdict _, .vty _, h => by simp [pbeq] at h
  | .vaddr _, .vnone, h => by simp [pbeq] at h
  | .vaddr _, .vbool _, h => by simp [pbeq] at h
  | .vaddr _, .vint _, h => by simp [pbeq] at h
  | .vaddr _, .vstr _, h => by simp [pbeq] at h
  | .vaddr _, .vlist _, h => by simp [pbeq] at h
  | .vaddr _, .vtuple _, h => by simp [pbeq] at h
  | .vaddr _, .vset _, h => by simp [pbeq] at h
  | .vaddr _, .vdict _, h => by simp [pbeq] at h
  | .vaddr _, .vbin _, h => by simp [pbeq] at h
  | .vaddr _, .vty _, h => by simp [pbeq] at h
  | .vbin _, .vnone, h => by simp [pbeq] at h
  | .vbin _, .vbool _, h => by simp [pbeq] at h
  | .vbin _, .vint _, h => by simp [pbeq] at h
  | .vbin _, .vstr _, h => by simp [pbeq] at h
  | .vbin _, .vlist _, h => by simp [pbeq] at h
  | .vbin _, .vtuple _, h => by simp [pbeq] at h
  | .vbin _, .vset _, h => by simp [pbeq] at h
  | .vbin _, .vdict _, h => by simp [pbeq] at h
  | .vbin _, .vaddr _, h => by simp [pbeq] at h
  | .vbin _, .vty _, h => by simp [pbeq] at h
  | .vty _, .vnone, h => by simp [pbeq] at h
  | .vty _, .vbool _, h => by simp [pbeq] at h
  | .vty _, .vint _, h => by simp [pbeq] at h
  | .vty _, .vstr _, h => by simp [pbeq] at h
  | .vty _, .vlist _, h => by simp [pbeq] at h
  | .vty _, .vtuple _, h => by simp [pbeq] at h
  | .vty _, .vset _, h => by simp [pbeq] at h
  | .vty _, .vdict _, h => by simp [pbeq] at h
  | .vty _, .vaddr _, h => by simp [pbeq] at h
  | .vty _, .vbin _, h => by simp [pbeq] at h
theorem eq_of_pbeqL : ∀ xs ys : List PyVal, pbeqL xs ys = true → xs = ys
  | [], [], _ => rfl
  | x :: xs, y :: ys, h => by
      simp only [pbeqL, Bool.and_eq_true] at h
      rw [eq_of_pbeq x y h.1, eq_of_pbeqL xs ys h.2]
  | [], _ :: _, h => by simp [pbeqL] at h
  | _ :: _, [], h => by simp [pbeqL] at h
theorem eq_of_pbeqK : ∀ xs ys : List (PyVal × PyVal), pbeqK xs ys = true → xs = ys
  | [], [], _ => rfl
  | (k, v) :: xs, (l, w) :: ys, h => by
      simp only [pbeqK, Bool.and_eq_true] at h
      rw [eq_of_pbeq k l h.1.1, eq_of_pbeq v w h.1.2, eq_of_pbeqK xs ys h.2]
  | [], _ :: _, h => by simp [pbeqK] at h
  | _ :: _, [], h => by simp [pbeqK] at h
end

mutual
/-- `pbeq` is reflexive. -/
theorem pbeq_refl : ∀ a : PyVal, pbeq a a = true
  | .vnone => rfl
  | .vbool a => by simp [pbeq]
  | .vint a => by simp [pbeq]
  | .vstr a => by simp [pbeq]
  | .vlist xs => by simp only [pbeq]; exact pbeqL_refl xs
  | .vtuple xs => by simp only [pbeq]; exact pbeqL_refl xs
  | .vset xs => by simp only [pbeq]; exact pbeqL_refl xs
  | .vdict ks => by simp only [pbeq]; exact pbeqK_refl ks
  | .vaddr a => by simp [pbeq]
  | .vbin a => by simp [pbeq]
  | .vty a => by simp [pbeq]
theorem pbeqL_refl : ∀ xs : List PyVal, pbeqL xs xs = true
  | [] => rfl
  | x :: xs => by simp only [pbeqL, Bool.and_eq_true]; exact ⟨pbeq_refl x, pbeqL_refl xs⟩
theorem pbeqK_refl : ∀ xs : List (PyVal × PyVal), pbeqK xs xs = true
  | [] => rfl
  | (k, v) :: xs => by
      simp only [pbeqK, Bool.and_eq_true]
      exact ⟨⟨pbeq_refl k, pbeq_refl v⟩, pbeqK_refl xs⟩
end

instance : DecidableEq PyVal := fun a b =>
  if h : pbeq a b = true then isTrue (eq_of_pbeq a b h)
  else isFalse (fun he => h (he ▸ pbeq_refl a))

/-- Python `type(v)` on an embedded value.  `type` of a class is `type`. -/
def typeOf : PyVal → PyType
  | .vnone => .tNone
  | .vbool _ => .tBool
  | .vint _ => .tInt
  | .vstr _ => .tStr
  | .vlist _ => .tList
  | .vtuple _ => .tTuple
  | .vset _ => .tSet
  | .vdict _ => .tDict
  | .vaddr _ => .tAddr
  | .vbin _ => .tBin
  | .vty _ => .tType

/-- Python `isinstance(v, c)` for the classes of `PyType`.  `object` is
the universal superclass; `bool` is a subclass of `int`. -/
def pyIsInstance (v : PyVal) : PyType → Bool
  | .tObject => true
  | .tInt => typeOf v == .tInt || typeOf v == .tBool
  | t => typeOf v == t

/-- First value bound to an equal key in an association list: Python
`thing[name]` / `name in thing` on a dictionary. -/
def dictLookup (kvs : List (PyVal × PyVal)) (k : PyVal) : Option PyVal :=
  match kvs with
  | [] => none
  | (k', v) :: rest => if k' = k then some v else dictLookup rest k

/-! ## The shape matcher (`shape.py`)

`is_shaped_exc(thing, shape)` either returns (a match) or raises one of
the `ShapeMismatch` subtypes; on the degenerate empty sequence shape with
a non-empty subject it dereferences the unbound local `subtype` and
raises a `NameError` instead, which `is_shaped` does not catch.  The
result type below records all of these outcomes.  The Python 2 preamble
that coerces `str` to `unicode` is the identity here because the
embedding has a single string type. -/

/-- Outcome of `is_shaped_exc`: success, one of the `ShapeMismatch`
subtypes, or the `NameError` escaping from an empty list/set shape. -/
inductive ShapedRes where
  | ok
  | typeMismatch
  | keyMismatch
  | sizeMismatch
  | shapeMismatch
  | nameError
deriving DecidableEq, Repr

/-- Sequencing of checks: the first raised error wins, later checks are
not reached. -/
def ShapedRes.seq : ShapedRes → ShapedRes → ShapedRes
  | .ok, r => r
  | e, _ => e

/-- Elements of a list-or-set subject: `isinstance(thing, (list, set))`
yields the element sequence, anything else is a `TypeMismatch`. -/
def seqElems : PyVal → Option (List PyVal)
  | .vlist txs => some txs
  | .vset txs => some txs
  | _ => none

/-- Check every element with `f`, the first raised error winning. -/
def seqAll (f : PyVal → ShapedRes) : List PyVal → ShapedRes
  | [] => .ok
  | t :: ts => (f t).seq (seqAll f ts)

mutual
/-- Core of `is_shaped_exc`, with the shape as the first argument: the
recursion of the matcher descends only into the shape, so putting it
first makes the definition structurally recursive (and therefore
computable by the kernel).  Branch order follows the source: container
shapes first (mapping, sequence-or-set, tuple), then the literal branch
for equal concrete types, then the `isinstance` branch for type
tokens. -/
def shapedCheck : PyVal → PyVal → ShapedRes
  | .vdict skvs, thing =>
      match thing with
      | .vdict tkvs => shapedDict skvs tkvs
      | _ => .typeMismatch
  | .vlist sxs, thing =>
      match seqElems thing with
      | some txs => shapedSeqElems sxs txs
      | none => .typeMismatch
  | .vset sxs, thing =>
      match seqElems thing with
      | some txs => shapedSeqElems sxs txs
      | none => .typeMismatch
  | .vtuple sxs, thing =>
      match thing with
      | .vtuple txs =>
          if txs.length = sxs.length then shapedTuple sxs txs
          else .sizeMismatch
      | _ => .typeMismatch
  | shape, thing =>
      if typeOf shape = typeOf thing then
        if pbeq thing shape then .ok else .shapeMismatch
      else
        match shape with
        | .vty t => if pyIsInstance thing t then .ok else .typeMismatch
        | _ => .typeMismatch
termination_by structural shape _ => shape

/-- The sequence-or-set branch: every subject element is checked against
the first element of the shape.  An empty sequence shape leaves the
Python local `subtype` unbound, so matching a non-empty subject raises
`NameError`. -/
def shapedSeqElems : List PyVal → List PyVal → ShapedRes
  | s :: _, txs => seqAll (shapedCheck s) txs
  | [], txs => if txs.isEmpty then .ok else .nameError

/-- The mapping branch (shape entries first): every key of the shape
must be present in the subject and its value must match the
corresponding sub-shape. -/
def shapedDict : List (PyVal × PyVal) → List (PyVal × PyVal) → ShapedRes
  | [], _ => .ok
  | (name, subtype) :: rest, tkvs =>
      match dictLookup tkvs name with
      | none => .keyMismatch
      | some subitem => (shapedCheck subtype subitem).seq (shapedDict rest tkvs)

/-- The tuple branch (shape positions first): positional matching of
equal-arity tuples. -/
def shapedTuple : List PyVal → List PyVal → ShapedRes
  | s :: ss, t :: ts => (shapedCheck s t).seq (shapedTuple ss ts)
  | _, _ => .ok
end

/-- `shape.is_shaped_exc(thing, shape)` (`shape.py` lines 55-122), in
the source argument order. -/
def is_shaped_exc (thing shape : PyVal) : ShapedRes := shapedCheck shape thing

/-- `shape.is_shaped`: `true` on a match, `false` when a `ShapeMismatch`
subtype was raised, and `none` when the `NameError` propagates (the
caller crashes). -/
def is_shaped (thing shape : PyVal) : Option Bool :=
  match is_shaped_exc thing shape with
  | .ok => some true
  | .nameError => none
  | _ => some false

/-- The `MalformedShape` errors of `calculate_shape`. -/
inductive CalcErr where
  | ambiguousShape
  | heterogenousList
deriving DecidableEq, Repr

deriving instance DecidableEq for Except

mutual
/-- `shape.calculate_shape(what)` (`shape.py` lines 141-162): mappings
recurse per key, non-empty lists of one outer element type recurse on
the first element, tuples recurse per position, and everything else
collapses to its type token. -/
def calculate_shape : PyVal → Except CalcErr PyVal
  | .vdict kvs => do pure (.vdict (← calcShapeKvs kvs))
  | .vlist xs =>
      match xs with
      | [] => .error .ambiguousShape
      | x :: rest =>
          if rest.all (fun y => typeOf y == typeOf x) then do
            pure (.vlist [← calculate_shape x])
          else .error .heterogenousList
  | .vtuple xs => do pure (.vtuple (← calcShapeList xs))
  | v => pure (.vty (typeOf v))

/-- `calculate_shape` on the entries of a mapping. -/
def calcShapeKvs : List (PyVal × PyVal) → Except CalcErr (List (PyVal × PyVal))
  | [] => pure []
  | (k, v) :: rest => do pure ((k, ← calculate_shape v) :: (← calcShapeKvs rest))

/-- `calculate_shape` on the positions of a tuple. -/
def calcShapeList : List PyVal → Except CalcErr (List PyVal)
  | [] => pure []
  | x :: rest => do pure ((← calculate_shape x) :: (← calcShapeList rest))
end

example : shapedCheck (.vty .tStr) (.vstr "hello") = .ok := by decide
example : is_shaped (.vstr "hello") (.vty .tStr) = some true := by decide
example : is_shaped (.vlist [.vint 1, .vint 2, .vint 3]) (.vlist [.vty .tInt]) = some true := by
  decide
example : is_shaped (.vint 1) (.vty .tBool) = some false := by decide
example : is_shaped (.vint 1) (.vint 2) = some false := by decide
example : is_shaped (.vty .tStr) (.vstr "z") = some false := by decide
example : is_shaped (.vtuple [.vint 1, .vint 2, .vint 3]) (.vtuple [.vty .tInt, .vty .tInt]) =
    some false := by decide
example :
    is_shaped (.vdict [(.vstr "foo", .vint 1)]) (.vdict [(.vstr "foo", .vty .tInt)]) =
      some true := by decide
example : is_shaped_exc (.vdict [(.vstr "bar", .vint 1)]) (.vdict [(.vstr "foo", .vty .tInt)]) =
    .keyMismatch := by decide
example : is_shaped (.vset [.vint 8, .vint 9]) (.vset [.vty .tInt]) = some true := by decide
example : calculate_shape (.vint 1) = .ok (.vty .tInt) := by decide
example : calculate_shape (.vdict [(.vstr "hello", .vstr "world")]) =
    .ok (.vdict [(.vstr "hello", .vty .tStr)]) := by decide
example : calculate_shape (.vlist []) = .error .ambiguousShape := by decide
example : calculate_shape (.vlist [.vint 1, .vstr "hi"]) = .error .heterogenousList := by decide

/-! ## Mailbox and selective receive (`actor.py` lines 403-458)

The mailbox is the actor-owned list of already-decoded messages; receive
scans it with `shape.is_shaped`.  A `NameError` escaping from `is_shaped`
(empty sequence shape, non-empty subject) propagates out of the scan,
recorded as `crash`. -/

/-- One mailbox entry against the pattern list, in pattern order (the
inner loop of `_match_patterns`). -/
inductive TryRes where
  | found (p : PyVal)
  | noMatch
  | crash
deriving DecidableEq

/-- Try each pattern in order against one message. -/
def tryPatterns (m : PyVal) : List PyVal → TryRes
  | [] => .noMatch
  | p :: ps =>
      match is_shaped m p with
      | some true => .found p
      | some false => tryPatterns m ps
      | none => .crash

/-- Result of `Actor._match_patterns`: the matched pattern, the matched
message and the mailbox left behind; or no match; or a propagating
`NameError`. -/
inductive MPRes where
  | found (p m : PyVal) (rest : List PyVal)
  | noMatch
  | crash
deriving DecidableEq

/-- `Actor._match_patterns`: scan the mailbox from head to tail; the
first entry some pattern matches is deleted in place and returned with
the matching pattern; `(None, None)` when no entry matches. -/
def matchPatterns (patterns : List PyVal) : List PyVal → MPRes
  | [] => .noMatch
  | m :: ms =>
      match tryPatterns m patterns with
      | .found p => .found p m ms
      | .crash => .crash
      | .noMatch =>
          match matchPatterns patterns ms with
          | .found p m' rest => .found p m' (m :: rest)
          | .noMatch => .noMatch
          | .crash => .crash

/-- The sentinel wildcard pattern `{object: object}` that a pattern-less
receive returns alongside the popped head message. -/
def wildcardPat : PyVal := .vdict [(.vty .tObject, .vty .tObject)]

/-- Caller-visible outcome of `receive`. -/
inductive RecvRes where
  | got (p m : PyVal)
  | none2
  | crash
deriving DecidableEq

/-- The `timeout == 0` path of `Actor.receive` (lines 423-429): with no
patterns pop the head entry if there is one, else `(None, None)`; with
patterns, exactly the result of one `_match_patterns` scan.  The second
component is the mailbox after the call.  No path suspends. -/
def receiveT0 (patterns mailbox : List PyVal) : RecvRes × List PyVal :=
  match patterns with
  | [] =>
      match mailbox with
      | [] => (.none2, [])
      | m :: ms => (.got wildcardPat m, ms)
  | _ =>
      match matchPatterns patterns mailbox with
      | .found p m rest => (.got p m, rest)
      | .noMatch => (.none2, mailbox)
      | .crash => (.crash, mailbox)

/-- A successful `tryPatterns` splits the pattern list into earlier
patterns that mismatched and the first matching one. -/
theorem tryPatterns_found (m : PyVal) :
    ∀ ps p, tryPatterns m ps = .found p →
      ∃ pre post, ps = pre ++ p :: post ∧
        (∀ q ∈ pre, is_shaped m q = some false) ∧ is_shaped m p = some true
  | [], p, h => by simp [tryPatterns] at h
  | q :: ps, p, h => by
      unfold tryPatterns at h
      cases hq : is_shaped m q with
      | none => rw [hq] at h; simp at h
      | some b =>
        cases b with
        | true =>
            rw [hq] at h
            simp only [TryRes.found.injEq] at h
            subst h
            exact ⟨[], ps, rfl, by intro r hr; simp at hr, hq⟩
        | false =>
            rw [hq] at h
            simp only at h
            obtain ⟨pre, post, h1, h2, h3⟩ := tryPatterns_found m ps p h
            refine ⟨q :: pre, post, by rw [h1]; rfl, ?_, h3⟩
            intro r hr
            rcases List.mem_cons.mp hr with hr | hr
            · exact hr ▸ hq
            · exact h2 r hr

/-- If every pattern mismatches a message, `tryPatterns` reports no
match. -/
theorem tryPatterns_all_false (m : PyVal) :
    ∀ ps, (∀ q ∈ ps, is_shaped m q = some false) → tryPatterns m ps = .noMatch
  | [], _ => rfl
  | q :: ps, h => by
      unfold tryPatterns
      rw [h q (List.mem_cons_self q ps)]
      exact tryPatterns_all_false m ps (fun r hr => h r (List.mem_cons_of_mem q hr))

/-- If every pattern mismatches every mailbox entry, the scan reports no
match. -/
theorem matchPatterns_all_false (patterns : List PyVal) :
    ∀ mailbox, (∀ m ∈ mailbox, ∀ q ∈ patterns, is_shaped m q = some false) →
      matchPatterns patterns mailbox = .noMatch
  | [], _ => rfl
  | m :: ms, h => by
      unfold matchPatterns
      rw [tryPatterns_all_false m patterns (h m (List.mem_cons_self m ms))]
      rw [matchPatterns_all_false patterns ms
        (fun m' hm' => h m' (List.mem_cons_of_mem m hm'))]
/-- C6.  A successful scan (`receive` delegates every scan of a
non-empty pattern list, in the `timeout == 0` path and in each round of
the waiting loop, to `_match_patterns`) returns the first mailbox entry
any pattern matches together with the first matching pattern in
pattern-list order; exactly that entry is removed, all other entries
keeping their relative order (`take i ++ drop (i+1)`). -/
theorem receive_scans_head_to_tail :
    ∀ (patterns mailbox : List PyVal) (p m : PyVal) (rest : List PyVal),
      matchPatterns patterns mailbox = .found p m rest →
      ∃ i, ∃ hi : i < mailbox.length,
        mailbox.get ⟨i, hi⟩ = m ∧
        rest = mailbox.take i ++ mailbox.drop (i + 1) ∧
        (∀ j, ∀ hj : j < mailbox.length, j < i →
          tryPatterns (mailbox.get ⟨j, hj⟩) patterns = .noMatch) ∧
        tryPatterns m patterns = .found p ∧
        ∃ pre post, patterns = pre ++ p :: post ∧
          (∀ q ∈ pre, is_shaped m q = some false) ∧ is_shaped m p = some true
  | patterns, [], p, m, rest, h => by simp [matchPatterns] at h
  | patterns, m0 :: ms, p, m, rest, h => by
      unfold matchPatterns at h
      cases ht : tryPatterns m0 patterns with
      | crash => rw [ht] at h; simp at h
      | found p0 =>
          rw [ht] at h
          simp only [MPRes.found.injEq] at h
          obtain ⟨hp, hm, hrest⟩ := h
          subst hp; subst hm; subst hrest
          refine ⟨0, by simp, rfl, by simp, ?_, ht, tryPatterns_found m0 patterns p0 ht⟩
          intro j hj hji
          exact absurd hji (Nat.not_lt_zero j)
      | noMatch =>
          rw [ht] at h
          cases hrec : matchPatterns patterns ms with
          | noMatch => rw [hrec] at h; simp at h
          | crash => rw [hrec] at h; simp at h
          | found p1 m1 rest1 =>
              rw [hrec] at h
              simp only [MPRes.found.injEq] at h
              obtain ⟨hp, hm, hrest⟩ := h
              subst hp; subst hm
              obtain ⟨i, hi, hget, hrest1, hbefore, htry, htie⟩ :=
                receive_scans_head_to_tail patterns ms p1 m1 rest1 hrec
              refine ⟨i + 1, Nat.succ_lt_succ hi, ?_, ?_, ?_, htry, htie⟩
              · simpa using hget
              · rw [← hrest, hrest1]
                simp
              · intro j hj hji
                cases j with
                | zero => simpa using ht
                | succ jn =>
                    have hjn : jn < ms.length := Nat.lt_of_succ_lt_succ hj
                    have := hbefore jn hjn (Nat.lt_of_succ_lt_succ hji)
                    simpa using this

/-- Sample mailbox entries and pattern for the receive claims: only
`msgC` matches `patC`. -/
def msgA : PyVal := .vstr "a"

/-- See `msgA`. -/
def msgB : PyVal := .vstr "b"

/-- See `msgA`. -/
def msgC : PyVal := .vdict [(.vstr "c", .vint 3)]

/-- See `msgA`. -/
def patC : PyVal := .vdict [(.vstr "c", .vty .tInt)]

/-- Evaluation of the scan on the concrete mailbox `[a, b, c]` with a
pattern matching only `c`. -/
theorem matchPatterns_concrete :
    matchPatterns [patC] [msgA, msgB, msgC] = .found patC msgC [msgA, msgB] := by
  decide

/-- Witness for C6 at the mailbox `[a, b, c]` of the claim. -/
theorem receive_scans_head_to_tail_witness :
    ∃ i, ∃ hi : i < [msgA, msgB, msgC].length,
      [msgA, msgB, msgC].get ⟨i, hi⟩ = msgC ∧
      [msgA, msgB] = [msgA, msgB, msgC].take i ++ [msgA, msgB, msgC].drop (i + 1) ∧
      (∀ j, ∀ hj : j < [msgA, msgB, msgC].length, j < i →
        tryPatterns ([msgA, msgB, msgC].get ⟨j, hj⟩) [patC] = .noMatch) ∧
      tryPatterns msgC [patC] = .found patC ∧
      ∃ pre post, [patC] = pre ++ patC :: post ∧
        (∀ q ∈ pre, is_shaped msgC q = some false) ∧ is_shaped msgC patC = some true :=
  receive_scans_head_to_tail [patC] [msgA, msgB, msgC] patC msgC [msgA, msgB]
    matchPatterns_concrete

/-- C7.  `receive` with `timeout = 0` never suspends: with no patterns
the head entry (if any) is popped and returned under the wildcard
sentinel; with patterns, a matching entry is returned and removed, and
if no entry matches, `(None, None)` is returned with the mailbox
unchanged. -/
theorem receive_timeout_zero_immediate (patterns mailbox : List PyVal) :
    (patterns = [] →
      (mailbox = [] → receiveT0 patterns mailbox = (.none2, [])) ∧
      (∀ m ms, mailbox = m :: ms → receiveT0 patterns mailbox = (.got wildcardPat m, ms))) ∧
    (patterns ≠ [] →
      ((∀ m ∈ mailbox, ∀ q ∈ patterns, is_shaped m q = some false) →
        receiveT0 patterns mailbox = (.none2, mailbox)) ∧
      (∀ p m rest, matchPatterns patterns mailbox = .found p m rest →
        receiveT0 patterns mailbox = (.got p m, rest))) := by
  constructor
  · intro hp
    subst hp
    constructor
    · intro hm; subst hm; rfl
    · intro m ms hm; subst hm; rfl
  · intro hp
    constructor
    · intro hall
      have hnm := matchPatterns_all_false patterns mailbox hall
      cases patterns with
      | nil => exact absurd rfl hp
      | cons q qs => simp [receiveT0, hnm]
    · intro p m rest hfound
      cases patterns with
      | nil => exact absurd rfl hp
      | cons q qs => simp [receiveT0, hfound]

/-- Witness for C7: a non-matching mailbox is left unchanged, and a
pattern-less receive pops the head. -/
theorem receive_timeout_zero_immediate_witness :
    receiveT0 [patC] [msgA] = (.none2, [msgA]) ∧
    receiveT0 [] [msgA] = (.got wildcardPat msgA, []) :=
  ⟨((receive_timeout_zero_immediate [patC] [msgA]).2 (by simp)).1
      (by decide),
   ((receive_timeout_zero_immediate [] [msgA]).1 rfl).2 msgA [] rfl⟩
/-! ## Actor lifecycle and the link engine (`actor.py` lines 478-533)

`Actor._run` executes the body, then completes the exit-slot and casts
link notifications.  The exact source order is: on a normal return,
`self._exit_event.set(result)` runs inside the `try`, *before* the
`exit_links` loop; on an exception, the `alinks` loop runs first, then
`set_exception`, and then the `exit_links` loop *still* runs with
`result = None`; `all_actors.pop` is last.  Each `link.cast`
dereferences the link address and raises `DeadActor` if its target is
gone, aborting the rest of `_run`. -/

/-- Whether `Address._actor` succeeds: the weak reference is alive and
the greenlet has not finished. -/
def addrLive (a : AddressObj) : Bool :=
  match a.target with
  | some r => !r.dead
  | none => false

/-- The link state of one actor: its identity and the two link lists
built by `add_link` (`alinks` always, `exit_links` when `trap_exit` is
true), in registration order. -/
structure ActorRT where
  arec : ActorRec
  alinks : List AddressObj
  exit_links : List AddressObj

/-- `{'address': self.address, 'exit': result}`. -/
def exitMsg (self : ActorRec) (result : PyVal) : PyVal :=
  .vdict [(.vstr "address", .vaddr (canonAddr self)), (.vstr "exit", result)]

/-- `{'address': self.address, 'exception': formatted}`.  The formatted
tree produced by `exc.format_exc()` is an opaque payload here. -/
def excMsg (self : ActorRec) (formatted : PyVal) : PyVal :=
  .vdict [(.vstr "address", .vaddr (canonAddr self)), (.vstr "exception", formatted)]

/-- Observable events of `Actor._run` after the body finished. -/
inductive RunEvent where
  | castMsg (dest : AddressObj) (msg : PyVal)
  | setResult (v : PyVal)
  | setExc
  | deregister
  | raiseDead
deriving DecidableEq

/-- `for link in links: link.cast(msg)`: the emitted events, and whether
the loop ran to completion (a dead link raises `DeadActor` instead of
casting, and the loop aborts). -/
def castAll (links : List AddressObj) (msg : PyVal) : List RunEvent × Bool :=
  match links with
  | [] => ([], true)
  | l :: rest =>
      if addrLive l then
        let (evs, completed) := castAll rest msg
        (.castMsg l msg :: evs, completed)
      else ([.raiseDead], false)

/-- How the actor body ended. -/
inductive BodyOutcome where
  | normal (result : PyVal)
  | raised (formatted : PyVal)

/-- The event sequence of `Actor._run` after the body finished,
following the source order described above. -/
def runTrace (self : ActorRT) : BodyOutcome → List RunEvent
  | .normal r =>
      let (evs, completed) := castAll self.exit_links (exitMsg self.arec r)
      .setResult r :: (evs ++ if completed then [.deregister] else [])
  | .raised fm =>
      let (evs1, c1) := castAll self.alinks (excMsg self.arec fm)
      if c1 then
        let (evs2, c2) := castAll self.exit_links (exitMsg self.arec .vnone)
        evs1 ++ .setExc :: (evs2 ++ if c2 then [.deregister] else [])
      else evs1

/-- The messages cast to one destination address in a trace, in order:
what that destination finds appended to its mailbox. -/
def castsTo (t : List RunEvent) (a : AddressObj) : List PyVal :=
  t.filterMap fun e =>
    match e with
    | .castMsg d m => if d = a then some m else none
    | _ => none

/-- `true` iff every cast in the trace happens before every completion
of the exit-slot. -/
def castsBeforeSet : List RunEvent → Bool
  | [] => true
  | .setResult _ :: rest =>
      rest.all fun e => match e with | .castMsg _ _ => false | _ => true
  | .setExc :: rest =>
      rest.all fun e => match e with | .castMsg _ _ => false | _ => true
  | _ :: rest => castsBeforeSet rest

/-- With every link alive, the cast loop is exactly one cast per link in
registration order. -/
theorem castAll_live (msg : PyVal) :
    ∀ links : List AddressObj, links.all addrLive = true →
      castAll links msg = (links.map (fun d => RunEvent.castMsg d msg), true)
  | [], _ => rfl
  | l :: rest, h => by
      simp only [List.all_cons, Bool.and_eq_true] at h
      simp [castAll, h.1, castAll_live msg rest h.2]

theorem castsTo_append (t1 t2 : List RunEvent) (a : AddressObj) :
    castsTo (t1 ++ t2) a = castsTo t1 a ++ castsTo t2 a :=
  List.filterMap_append t1 t2 _

/-- A pure cast loop delivers to `a` one copy of the message per
occurrence of `a` among the destinations. -/
theorem castsTo_map (msg : PyVal) (a : AddressObj) :
    ∀ links : List AddressObj,
      castsTo (links.map (fun d => RunEvent.castMsg d msg)) a =
        List.replicate (links.count a) msg
  | [] => rfl
  | l :: rest => by
      have ih := castsTo_map msg a rest
      simp only [castsTo, List.map_cons, List.filterMap_cons] at ih ⊢
      by_cases hd : l = a
      · rw [hd]
        simp [List.count_cons, ih, List.replicate_succ]
      · simp [List.count_cons, hd, ih]
theorem castsTo_cons_set (v : PyVal) (t : List RunEvent) (a : AddressObj) :
    castsTo (.setResult v :: t) a = castsTo t a := by
  simp [castsTo]

theorem castsTo_cons_setExc (t : List RunEvent) (a : AddressObj) :
    castsTo (.setExc :: t) a = castsTo t a := by
  simp [castsTo]

theorem castsTo_dereg (a : AddressObj) : castsTo [.deregister] a = [] := rfl

/-- C1 (amended).  A parent linked once with the default
`trap_exit=True` (the `spawn_link` setup), all links live: on a normal
termination it receives exactly one message, the exit message; on an
exceptional termination it receives exactly two messages, the exception
message followed by an exit message whose result is `None` (the
`exit_links` loop runs after the `except` block as well).  Every message
carries the child address. -/
theorem link_messages_per_child (self : ActorRT) (parent : AddressObj) (r fm : PyVal)
    (hal : self.alinks.all addrLive = true)
    (hel : self.exit_links.all addrLive = true)
    (ha1 : self.alinks.count parent = 1)
    (he1 : self.exit_links.count parent = 1) :
    castsTo (runTrace self (.normal r)) parent = [exitMsg self.arec r] ∧
    castsTo (runTrace self (.raised fm)) parent =
      [excMsg self.arec fm, exitMsg self.arec .vnone] := by
  have h1 := castAll_live (exitMsg self.arec r) self.exit_links hel
  have h2 := castAll_live (excMsg self.arec fm) self.alinks hal
  have h3 := castAll_live (exitMsg self.arec .vnone) self.exit_links hel
  constructor
  · simp only [runTrace, h1, if_true]
    rw [castsTo_cons_set, castsTo_append, castsTo_map, he1]
    rfl
  · simp only [runTrace, h2, h3, if_true]
    rw [castsTo_append, castsTo_map, ha1, castsTo_cons_setExc, castsTo_append,
      castsTo_map, he1]
    rfl

/-- A live parent and a child linked to it with the default
`trap_exit=True`, as `spawn_link` installs it. -/
def parentRec : ActorRec := ⟨"parent-id", false, 0⟩

/-- The parent cached address. -/
def pAddr : AddressObj := canonAddr parentRec

/-- The child actor identity. -/
def childRec : ActorRec := ⟨"child-id", false, 1⟩

/-- The child as `spawn_link(parent)` leaves it: the parent address in
both link lists. -/
def childSelf : ActorRT := ⟨childRec, [pAddr], [pAddr]⟩

/-- A stand-in for the `exc.format_exc()` tree of the child exception. -/
def fmtV : PyVal := .vstr "RuntimeError: boom"

/-- Witness for C1 (amended) at a concrete parent/child pair. -/
theorem link_messages_per_child_witness :
    castsTo (runTrace childSelf (.normal (.vint 4))) pAddr = [exitMsg childRec (.vint 4)] ∧
    castsTo (runTrace childSelf (.raised fmtV)) pAddr =
      [excMsg childRec fmtV, exitMsg childRec .vnone] :=
  link_messages_per_child childSelf pAddr (.vint 4) fmtV (by decide) (by decide)
    (by decide) (by decide)

/-- Counterexample to C1 as stated: when the child raises, the parent of
`spawn_link` receives two messages for the one child, an exception
message and then an exit message, not exactly one. -/
theorem link_messages_both_kinds_cex :
    castsTo (runTrace childSelf (.raised fmtV)) pAddr =
      [excMsg childRec fmtV, exitMsg childRec .vnone] ∧
    (castsTo (runTrace childSelf (.raised fmtV)) pAddr).length = 2 ∧
    excMsg childRec fmtV ≠ exitMsg childRec .vnone := by
  refine ⟨by decide, by decide, by decide⟩

/-- C2 (amended).  With all links live, the full order of `_run` events:
on an exception, every exception cast precedes the exit-slot completion,
which precedes the (still executed) exit casts; on a normal return, the
exit-slot is set first and the exit casts follow, within the same
uninterrupted run step. -/
theorem link_casts_order (self : ActorRT) (r fm : PyVal)
    (hal : self.alinks.all addrLive = true)
    (hel : self.exit_links.all addrLive = true) :
    runTrace self (.normal r) =
      .setResult r ::
        (self.exit_links.map (fun d => RunEvent.castMsg d (exitMsg self.arec r)) ++
          [.deregister]) ∧
    runTrace self (.raised fm) =
      self.alinks.map (fun d => RunEvent.castMsg d (excMsg self.arec fm)) ++
        .setExc ::
          (self.exit_links.map (fun d => RunEvent.castMsg d (exitMsg self.arec .vnone)) ++
            [.deregister]) := by
  have h1 := castAll_live (exitMsg self.arec r) self.exit_links hel
  have h2 := castAll_live (excMsg self.arec fm) self.alinks hal
  have h3 := castAll_live (exitMsg self.arec .vnone) self.exit_links hel
  constructor
  · simp [runTrace, h1, if_true]
  · simp [runTrace, h2, h3, if_true]

/-- Witness for C2 (amended) at the concrete parent/child pair. -/
theorem link_casts_order_witness :
    runTrace childSelf (.normal (.vint 4)) =
      .setResult (.vint 4) ::
        (childSelf.exit_links.map
            (fun d => RunEvent.castMsg d (exitMsg childSelf.arec (.vint 4))) ++
          [.deregister]) ∧
    runTrace childSelf (.raised fmtV) =
      childSelf.alinks.map (fun d => RunEvent.castMsg d (excMsg childSelf.arec fmtV)) ++
        .setExc ::
          (childSelf.exit_links.map
              (fun d => RunEvent.castMsg d (exitMsg childSelf.arec .vnone)) ++
            [.deregister]) :=
  link_casts_order childSelf (.vint 4) fmtV (by decide) (by decide)

/-- Counterexample to C2 as stated: on a normal completion the exit-slot
is set *before* the exit message is cast, so not every link cast
precedes the exit-slot completion. -/
theorem exit_cast_after_set_cex :
    runTrace childSelf (.normal (.vint 4)) =
      [.setResult (.vint 4), .castMsg pAddr (exitMsg childRec (.vint 4)), .deregister] ∧
    castsBeforeSet (runTrace childSelf (.normal (.vint 4))) = false := by
  refine ⟨by decide, by decide⟩

/-! ## The registry (`Actor.all_actors`) -/

/-- The process-wide `Actor.all_actors` mapping, keys distinct. -/
abbrev Registry := List (String × ActorRec)

/-- `all_actors[name]`. -/
def regLookup : Registry → String → Option ActorRec
  | [], _ => none
  | (k, r) :: rest, aid => if k = aid then some r else regLookup rest aid

/-- `all_actors[actor_id] = self` on a fresh id (`Actor.__init__`,
line 389, which runs inside `spawn` before the deferred start). -/
def regInsert (reg : Registry) (aid : String) (r : ActorRec) : Registry :=
  reg ++ [(aid, r)]

/-- `all_actors.pop(actor_id)` (`_run`, line 533). -/
def regRemove (reg : Registry) (aid : String) : Registry :=
  reg.filter fun kv => kv.1 != aid

/-- Effect of one `_run` event on the registry: only the final pop
touches it. -/
def applyRunEvent (selfId : String) (reg : Registry) : RunEvent → Registry
  | .deregister => regRemove reg selfId
  | _ => reg

/-- Registry after a run trace. -/
def applyRunTrace (selfId : String) (reg : Registry) (t : List RunEvent) : Registry :=
  t.foldl (applyRunEvent selfId) reg

/-- The parent as it is once it has terminated: dead. -/
def deadParentRec : ActorRec := ⟨"parent-id", true, 0⟩

/-- The (stale) parent address held in the child link list. -/
def pAddrDead : AddressObj := canonAddr deadParentRec

/-- The child whose exit link now points at the dead parent. -/
def childSelfDead : ActorRT := ⟨childRec, [], [pAddrDead]⟩

/-- The registry as it stands while the child runs. -/
def reg0 : Registry := regInsert [] "child-id" childRec

/-- C10 failing input: a child whose exit link is dead when it
terminates normally.  The `DeadActor` raised by `link.cast` escapes
`_run` before `all_actors.pop`, so the terminated child is never
deregistered, and its id still resolves; with a live link the same child
is removed as the claim describes. -/
theorem registry_leak_on_dead_link :
    runTrace childSelfDead (.normal (.vint 4)) = [.setResult (.vint 4), .raiseDead] ∧
    RunEvent.deregister ∉ runTrace childSelfDead (.normal (.vint 4)) ∧
    regLookup (applyRunTrace "child-id" reg0 (runTrace childSelfDead (.normal (.vint 4))))
        "child-id" = some childRec ∧
    regLookup (applyRunTrace "child-id" reg0 (runTrace childSelf (.normal (.vint 4))))
        "child-id" = none := by
  refine ⟨by decide, by decide, by decide, by decide⟩
/-! ## The message codec and the address layer (`actor.py` lines 151-231)

`cast` serialises every message with `json.dumps(message,
default=handle_custom)` and the receiving `_cast` immediately decodes it
with `json.loads(message, object_hook=generate_custom)`.  Both are
modelled at the object level; the JSON text itself is faithful for the
core values.  The base64 codec is an out-of-scope collaborator and is
modelled as the identity injection on byte strings. -/

/-- Python errors surfacing from the codec and the address layer. -/
inductive PyErr where
  | keyError
  | deadActor
  | typeError
deriving DecidableEq, Repr

/-- `Address._actor` (lines 220-227): the weak reference must still be
alive and the actor not dead, else `DeadActor` is raised. -/
def derefAddr (a : AddressObj) : Except PyErr ActorRec :=
  match a.target with
  | none => .error .deadActor
  | some r => if r.dead then .error .deadActor else .ok r

/-- The base64 codec, modelled as the identity injection (spec scope). -/
def b64encode (s : String) : String := s

/-- Inverse of `b64encode`. -/
def b64decode (s : String) : String := s

/-- `Address.to_json` via `handle_custom`:
`{'_pyact_address': self.actor_id}`.  Reading `actor_id` dereferences
the weak reference and can raise `DeadActor`. -/
def addrToJson (a : AddressObj) : Except PyErr PyVal := do
  let r ← derefAddr a
  pure (.vdict [(.vstr "_pyact_address", .vstr r.actorId)])

/-- `Binary.to_json`: `{'_pyact_binary': base64(value)}`. -/
def binToJson (b : String) : PyVal :=
  .vdict [(.vstr "_pyact_binary", .vstr (b64encode b))]

mutual
/-- `json.dumps(message, default=handle_custom)` at the object level:
the JSON core passes through, tuples are written as arrays, addresses
and binaries are tagged by `handle_custom`, and anything else reaching
`handle_custom` (sets, class objects) raises `TypeError`.  Mapping keys
must be strings. -/
def encodeVal : PyVal → Except PyErr PyVal
  | .vnone => pure .vnone
  | .vbool b => pure (.vbool b)
  | .vint n => pure (.vint n)
  | .vstr s => pure (.vstr s)
  | .vlist xs => do pure (.vlist (← encodeList xs))
  | .vtuple xs => do pure (.vlist (← encodeList xs))
  | .vset _ => .error .typeError
  | .vdict kvs => do pure (.vdict (← encodeKvs kvs))
  | .vaddr a => addrToJson a
  | .vbin b => pure (binToJson b)
  | .vty _ => .error .typeError

/-- `encodeVal` on array elements. -/
def encodeList : List PyVal → Except PyErr (List PyVal)
  | [] => pure []
  | x :: rest => do pure ((← encodeVal x) :: (← encodeList rest))

/-- `encodeVal` on mapping entries; keys must be strings. -/
def encodeKvs : List (PyVal × PyVal) → Except PyErr (List (PyVal × PyVal))
  | [] => pure []
  | (k, v) :: rest =>
      match k with
      | .vstr s => do pure ((.vstr s, ← encodeVal v) :: (← encodeKvs rest))
      | _ => .error .typeError
end

/-- `Address.from_json` (lines 208-212): a mapping whose key list is
exactly `['_pyact_address']` resolves `Actor.all_actors[id].address`; an
id absent from the registry raises `KeyError` right here, at decode
time.  Any other mapping yields `None`. -/
def addressFromJson (reg : Registry) (kvs : List (PyVal × PyVal)) :
    Except PyErr (Option AddressObj) :=
  if kvs.map Prod.fst = [PyVal.vstr "_pyact_address"] then
    match kvs with
    | [(_, .vstr aid)] =>
        match regLookup reg aid with
        | some r => pure (some (canonAddr r))
        | none => .error .keyError
    | _ => .error .keyError
  else pure none

/-- `Binary.from_json` (lines 175-179). -/
def binaryFromJson (kvs : List (PyVal × PyVal)) : Except PyErr (Option PyVal) :=
  if kvs.map Prod.fst = [PyVal.vstr "_pyact_binary"] then
    match kvs with
    | [(_, .vstr s)] => pure (some (.vbin (b64decode s)))
    | _ => .error .typeError
  else pure none

/-- `generate_custom` (lines 156-163): the `object_hook` applied to
every decoded JSON object — first tried as an address, then as a
binary, else passed through. -/
def generate_custom (reg : Registry) (kvs : List (PyVal × PyVal)) :
    Except PyErr PyVal := do
  match ← addressFromJson reg kvs with
  | some a => pure (.vaddr a)
  | none =>
      match ← binaryFromJson kvs with
      | some b => pure b
      | none => pure (.vdict kvs)

mutual
/-- `json.loads(text, object_hook=generate_custom)` at the object
level: the hook runs bottom-up on every mapping. -/
def decodeVal (reg : Registry) : PyVal → Except PyErr PyVal
  | .vdict kvs => do generate_custom reg (← decodeKvs reg kvs)
  | .vlist xs => do pure (.vlist (← decodeList reg xs))
  | v => pure v

/-- `decodeVal` on array elements. -/
def decodeList (reg : Registry) : List PyVal → Except PyErr (List PyVal)
  | [] => pure []
  | x :: rest => do pure ((← decodeVal reg x) :: (← decodeList reg rest))

/-- `decodeVal` on mapping entries (JSON object keys are strings and
pass through; values are decoded first, bottom-up). -/
def decodeKvs (reg : Registry) : List (PyVal × PyVal) →
    Except PyErr (List (PyVal × PyVal))
  | [] => pure []
  | (k, v) :: rest => do pure ((k, ← decodeVal reg v) :: (← decodeKvs reg rest))
end

/-- C5 (amended).  Decoding a message containing
`{"_pyact_address": id}` where `id` names no registered actor fails
immediately at decode time with the registry `KeyError`; `DeadActor` is
what the *dereference* of an address whose target actor is collected or
dead raises. -/
theorem decode_unknown_address_keyerror (reg : Registry) (aid : String)
    (h : regLookup reg aid = none) :
    decodeVal reg (.vdict [(.vstr "_pyact_address", .vstr aid)]) = .error .keyError ∧
    ∀ a : AddressObj,
      (a.target = none ∨ ∃ r, a.target = some r ∧ r.dead = true) →
      derefAddr a = .error .deadActor := by
  constructor
  · simp [decodeVal, decodeKvs, generate_custom, addressFromJson, h,
      bind, Except.bind, pure, Except.pure]
  · intro a ha
    rcases ha with ha | ⟨r, ha, hd⟩
    · simp [derefAddr, ha]
    · simp [derefAddr, ha, hd]

/-- Witness for C5 (amended) on the empty registry and a ghost id, and
a dead address. -/
theorem decode_unknown_address_keyerror_witness :
    decodeVal [] (.vdict [(.vstr "_pyact_address", .vstr "ghost")]) =
      .error .keyError ∧
    ∀ a : AddressObj,
      (a.target = none ∨ ∃ r, a.target = some r ∧ r.dead = true) →
      derefAddr a = .error .deadActor :=
  decode_unknown_address_keyerror [] "ghost" rfl

/-- Counterexample to C5 as stated: decode of an unknown-id address does
*not* succeed — it raises `KeyError` (which is not the `DeadActor`
kind) before any dereference happens. -/
theorem decode_unknown_address_cex :
    decodeVal [] (.vdict [(.vstr "_pyact_address", .vstr "ghost")]) =
      .error .keyError ∧
    PyErr.keyError ≠ PyErr.deadActor := by
  refine ⟨?_, by decide⟩
  simp [decodeVal, decodeKvs, generate_custom, addressFromJson, regLookup,
    bind, Except.bind, pure, Except.pure]

/-- Python `==` on two `Address` values: `Address` defines no custom
equality, so the default object identity applies. -/
def pyAddrEq (a b : AddressObj) : Bool := a.objId == b.objId

/-- C9 (amended).  `Address` equality is object identity; since every
actor exposes a single cached `Address` object (the lazy `address`
property) returned by all API paths, two cached addresses are equal iff
their actors' `actor_id`s are equal.  The two hypotheses state the
well-formedness of the actor world: distinct actors have distinct cached
address objects and distinct ids. -/
theorem address_eq_iff_actor_id_canonical (r1 r2 : ActorRec)
    (hobj : r1.addrObjId = r2.addrObjId → r1 = r2)
    (hid : r1.actorId = r2.actorId → r1 = r2) :
    pyAddrEq (canonAddr r1) (canonAddr r2) = true ↔ r1.actorId = r2.actorId := by
  constructor
  · intro h
    have hq : r1.addrObjId = r2.addrObjId := by
      simpa [pyAddrEq, canonAddr] using h
    rw [hobj hq]
  · intro h
    rw [hid h]
    simp [pyAddrEq, canonAddr]

/-- Witness for C9 (amended) on two distinct live actors. -/
theorem address_eq_iff_actor_id_canonical_witness :
    pyAddrEq (canonAddr parentRec) (canonAddr childRec) = true ↔
      parentRec.actorId = childRec.actorId :=
  address_eq_iff_actor_id_canonical parentRec childRec (by decide) (by decide)

/-- A second `Address(actor)` object over the same parent actor,
distinct from the cached `pAddr`. -/
def pAddrDup : AddressObj := ⟨2, some parentRec⟩

/-- Counterexample to C9 as stated: two `Address` objects with the same
`actor_id` are not equal when they are distinct objects, because the
class defines no `eq` and the default identity comparison applies. -/
theorem address_eq_by_identity_cex :
    pyAddrEq pAddr pAddrDup = false ∧
    (derefAddr pAddr).map ActorRec.actorId = (derefAddr pAddrDup).map ActorRec.actorId := by
  refine ⟨by decide, by decide⟩
/-- Registry well-formedness: every actor is stored under its own
`actor_id` (`__init__` and `rename` both maintain this). -/
abbrev regWF (reg : Registry) : Prop := ∀ kv ∈ reg, kv.2.actorId = kv.1

/-- In a well-formed registry a successful lookup returns an actor whose
id is the key. -/
theorem regLookup_wf : ∀ reg : Registry, regWF reg →
    ∀ aid r, regLookup reg aid = some r → r.actorId = aid
  | [], _, aid, r, h => by simp [regLookup] at h
  | (k, r0) :: rest, hwf, aid, r, h => by
      unfold regLookup at h
      by_cases hk : k = aid
      · rw [if_pos hk] at h
        injection h with h
        subst h
        rw [hwf (k, r0) (List.mem_cons_self _ _)]
        exact hk
      · rw [if_neg hk] at h
        exact regLookup_wf rest (fun kv hkv => hwf kv (List.mem_cons_of_mem _ hkv)) aid r h

mutual
/-- Message contents for which the codec round trip is clean: the JSON
core plus tuples and binaries, and addresses whose actor is live and
registered; mapping keys are strings, and no key list equals a reserved
tagged singleton (such a mapping would be reconstituted as an
`Address`/`Binary` by the decode hook). -/
def transportable (reg : Registry) : PyVal → Bool
  | .vnone => true
  | .vbool _ => true
  | .vint _ => true
  | .vstr _ => true
  | .vlist xs => transportableL reg xs
  | .vtuple xs => transportableL reg xs
  | .vset _ => false
  | .vdict kvs =>
      decide (kvs.map Prod.fst ≠ [PyVal.vstr "_pyact_address"]) &&
      decide (kvs.map Prod.fst ≠ [PyVal.vstr "_pyact_binary"]) &&
      transportableK reg kvs
  | .vaddr a =>
      match a.target with
      | some r => !r.dead && (regLookup reg r.actorId).isSome
      | none => false
  | .vbin _ => true
  | .vty _ => false

/-- `transportable` on array elements. -/
def transportableL (reg : Registry) : List PyVal → Bool
  | [] => true
  | x :: rest => transportable reg x && transportableL reg rest

/-- `transportable` on mapping entries (string keys). -/
def transportableK (reg : Registry) : List (PyVal × PyVal) → Bool
  | [] => true
  | (k, v) :: rest =>
      (match k with | .vstr _ => true | _ => false) &&
      transportable reg v && transportableK reg rest
end

mutual
/-- The actor ids of the addresses contained in a value, in traversal
order, read through the weak reference. -/
def addrIdsOf : PyVal → List String
  | .vlist xs => addrIdsOfL xs
  | .vtuple xs => addrIdsOfL xs
  | .vset xs => addrIdsOfL xs
  | .vdict kvs => addrIdsOfK kvs
  | .vaddr a => (match a.target with | some r => [r.actorId] | none => [])
  | _ => []

/-- `addrIdsOf` on list elements. -/
def addrIdsOfL : List PyVal → List String
  | [] => []
  | x :: rest => addrIdsOf x ++ addrIdsOfL rest

/-- `addrIdsOf` on mapping entries. -/
def addrIdsOfK : List (PyVal × PyVal) → List String
  | [] => []
  | (_, v) :: rest => addrIdsOf v ++ addrIdsOfK rest
end

mutual
/-- Encode/decode round trip on transportable values: both sides
succeed and the addresses come back with the same actor ids. -/
theorem codec_roundtrip : ∀ (reg : Registry), regWF reg →
    ∀ v : PyVal, transportable reg v = true →
      ∃ enc out, encodeVal v = .ok enc ∧ decodeVal reg enc = .ok out ∧
        addrIdsOf out = addrIdsOf v
  | reg, _, .vnone, _ => by
      refine ⟨.vnone, .vnone, ?_, ?_, rfl⟩ <;>
        simp [encodeVal, decodeVal, pure, Except.pure]
  | reg, _, .vbool b, _ => by
      refine ⟨.vbool b, .vbool b, ?_, ?_, rfl⟩ <;>
        simp [encodeVal, decodeVal, pure, Except.pure]
  | reg, _, .vint n, _ => by
      refine ⟨.vint n, .vint n, ?_, ?_, rfl⟩ <;>
        simp [encodeVal, decodeVal, pure, Except.pure]
  | reg, _, .vstr s, _ => by
      refine ⟨.vstr s, .vstr s, ?_, ?_, rfl⟩ <;>
        simp [encodeVal, decodeVal, pure, Except.pure]
  | reg, hwf, .vlist xs, ht => by
      simp only [transportable] at ht
      obtain ⟨encs, outs, he, hd, hids⟩ := codec_roundtripL reg hwf xs ht
      refine ⟨.vlist encs, .vlist outs, ?_, ?_, ?_⟩
      · simp [encodeVal, he, bind, Except.bind, pure, Except.pure]
      · simp [decodeVal, hd, bind, Except.bind, pure, Except.pure]
      · simp [addrIdsOf, hids]
  | reg, hwf, .vtuple xs, ht => by
      simp only [transportable] at ht
      obtain ⟨encs, outs, he, hd, hids⟩ := codec_roundtripL reg hwf xs ht
      refine ⟨.vlist encs, .vlist outs, ?_, ?_, ?_⟩
      · simp [encodeVal, he, bind, Except.bind, pure, Except.pure]
      · simp [decodeVal, hd, bind, Except.bind, pure, Except.pure]
      · simp [addrIdsOf, hids]
  | reg, hwf, .vdict kvs, ht => by
      simp only [transportable, Bool.and_eq_true, decide_eq_true_eq] at ht
      obtain ⟨⟨hka, hkb⟩, htk⟩ := ht
      obtain ⟨ekvs, okvs, he, hd, hids, hkE, hkD⟩ := codec_roundtripK reg hwf kvs htk
      refine ⟨.vdict ekvs, .vdict okvs, ?_, ?_, ?_⟩
      · simp [encodeVal, he, bind, Except.bind, pure, Except.pure]
      · have hfa : addressFromJson reg okvs = .ok none := by
          unfold addressFromJson
          rw [if_neg (by rw [hkD, hkE]; exact hka)]
          rfl
        have hfb : binaryFromJson okvs = .ok none := by
          unfold binaryFromJson
          rw [if_neg (by rw [hkD, hkE]; exact hkb)]
          rfl
        simp [decodeVal, hd, generate_custom, hfa, hfb,
          bind, Except.bind, pure, Except.pure]
      · simp [addrIdsOf, hids]
  | reg, hwf, .vaddr a, ht => by
      simp only [transportable] at ht
      cases hta : a.target with
      | none => rw [hta] at ht; simp at ht
      | some r =>
          rw [hta] at ht
          simp only [Bool.and_eq_true, Bool.not_eq_eq_eq_not, Bool.not_true,
            Option.isSome_iff_exists] at ht
          obtain ⟨hdead, r2, hr2⟩ := ht
          have hid2 : r2.actorId = r.actorId := regLookup_wf reg hwf r.actorId r2 hr2
          refine ⟨.vdict [(.vstr "_pyact_address", .vstr r.actorId)],
            .vaddr (canonAddr r2), ?_, ?_, ?_⟩
          · simp [encodeVal, addrToJson, derefAddr, hta, hdead,
              bind, Except.bind, pure, Except.pure]
          · have hfa : addressFromJson reg [(.vstr "_pyact_address", .vstr r.actorId)] =
                .ok (some (canonAddr r2)) := by
              unfold addressFromJson
              rw [if_pos (by simp)]
              simp [hr2, pure, Except.pure]
            simp [decodeVal, decodeKvs, generate_custom, hfa,
              bind, Except.bind, pure, Except.pure]
          · simp [addrIdsOf, canonAddr, hta, hid2]
  | reg, _, .vbin b, _ => by
      refine ⟨binToJson b, .vbin (b64decode (b64encode b)), ?_, ?_, ?_⟩
      · simp [encodeVal, pure, Except.pure]
      · have hfa : addressFromJson reg [(.vstr "_pyact_binary", .vstr (b64encode b))] =
            .ok none := by
          unfold addressFromJson
          rw [if_neg (by simp)]
          rfl
        have hfb : binaryFromJson [(.vstr "_pyact_binary", .vstr (b64encode b))] =
            .ok (some (.vbin (b64decode (b64encode b)))) := by
          unfold binaryFromJson
          rw [if_pos (by simp)]
          rfl
        simp [binToJson, decodeVal, decodeKvs, generate_custom, hfa, hfb,
          bind, Except.bind, pure, Except.pure]
      · simp [addrIdsOf]
  | reg, _, .vset _, ht => by simp [transportable] at ht
  | reg, _, .vty _, ht => by simp [transportable] at ht

/-- Round trip on array elements. -/
theorem codec_roundtripL : ∀ (reg : Registry), regWF reg →
    ∀ xs : List PyVal, transportableL reg xs = true →
      ∃ encs outs, encodeList xs = .ok encs ∧ decodeList reg encs = .ok outs ∧
        addrIdsOfL outs = addrIdsOfL xs
  | reg, _, [], _ => by
      refine ⟨[], [], rfl, ?_, rfl⟩
      simp [decodeList, pure, Except.pure]
  | reg, hwf, x :: rest, ht => by
      simp only [transportableL, Bool.and_eq_true] at ht
      obtain ⟨e1, o1, he1, hd1, hi1⟩ := codec_roundtrip reg hwf x ht.1
      obtain ⟨es, os, hes, hds, his⟩ := codec_roundtripL reg hwf rest ht.2
      refine ⟨e1 :: es, o1 :: os, ?_, ?_, ?_⟩
      · simp [encodeList, he1, hes, bind, Except.bind, pure, Except.pure]
      · simp [decodeList, hd1, hds, bind, Except.bind, pure, Except.pure]
      · simp [addrIdsOfL, hi1, his]

/-- Round trip on mapping entries: string keys pass through unchanged on
both sides. -/
theorem codec_roundtripK : ∀ (reg : Registry), regWF reg →
    ∀ kvs : List (PyVal × PyVal), transportableK reg kvs = true →
      ∃ ekvs okvs, encodeKvs kvs = .ok ekvs ∧ decodeKvs reg ekvs = .ok okvs ∧
        addrIdsOfK okvs = addrIdsOfK kvs ∧
        ekvs.map Prod.fst = kvs.map Prod.fst ∧
        okvs.map Prod.fst = ekvs.map Prod.fst
  | reg, _, [], _ => by
      refine ⟨[], [], rfl, ?_, rfl, rfl, rfl⟩
      simp [decodeKvs, pure, Except.pure]
  | reg, hwf, (k, v) :: rest, ht => by
      simp only [transportableK, Bool.and_eq_true] at ht
      obtain ⟨⟨hk, htv⟩, htr⟩ := ht
      obtain ⟨e1, o1, he1, hd1, hi1⟩ := codec_roundtrip reg hwf v htv
      obtain ⟨es, os, hes, hds, his, hkE, hkD⟩ := codec_roundtripK reg hwf rest htr
      cases k with
      | vstr s =>
          refine ⟨(.vstr s, e1) :: es, (.vstr s, o1) :: os, ?_, ?_, ?_, ?_, ?_⟩
          · simp [encodeKvs, he1, hes, bind, Except.bind, pure, Except.pure]
          · simp [decodeKvs, hd1, hds, bind, Except.bind, pure, Except.pure]
          · simp [addrIdsOfK, hi1, his]
          · simp [hkE]
          · simp [hkD]
      | vnone => simp at hk
      | vbool b => simp at hk
      | vint n => simp at hk
      | vlist xs => simp at hk
      | vtuple xs => simp at hk
      | vset xs => simp at hk
      | vdict kvs2 => simp at hk
      | vaddr a => simp at hk
      | vbin b => simp at hk
      | vty t => simp at hk
end

/-- C8.  A message whose addresses refer to live registered actors
survives the encode/decode round trip: decoding the encoded message
succeeds and yields addresses equal to the originals as logical
addresses — the same actor ids, position by position. -/
theorem address_json_roundtrip (reg : Registry) (msg : PyVal)
    (hwf : regWF reg) (ht : transportable reg msg = true) :
    ∃ enc out, encodeVal msg = .ok enc ∧ decodeVal reg enc = .ok out ∧
      addrIdsOf out = addrIdsOf msg :=
  codec_roundtrip reg hwf msg ht

/-- The registry holding the live parent actor. -/
def regP : Registry := [("parent-id", parentRec)]

/-- A concrete message carrying the parent address. -/
def msgP : PyVal := .vdict [(.vstr "to", .vaddr pAddr), (.vstr "n", .vint 1)]

/-- Witness for C8 on a concrete registry and message. -/
theorem address_json_roundtrip_witness :
    ∃ enc out, encodeVal msgP = .ok enc ∧ decodeVal regP enc = .ok out ∧
      addrIdsOf out = addrIdsOf msgP :=
  address_json_roundtrip regP msgP (by decide)
    (by simp [transportable, transportableL, transportableK, msgP, pAddr, parentRec,
      canonAddr, regLookup, regP])
/-! ## Shape round trip: `matches(v, calculate_shape(v))` (C4)

`calculate_shape` checks only the *outer* type of list elements
(`type(subitem) is not subtype`), so a list whose elements agree on the
outer type but differ in inner structure gets a shape derived from its
first element that the other elements need not match.  The predicate
`deepHom` states the condition under which the derived shape does match:
every list's elements share one calculated shape, recursively, and (as
in Python) dictionary keys are distinct; class-object values are
excluded, since `calculate_shape` collapses a class to `type`, which the
literal branch of the matcher then rejects. -/

mutual
/-- Recursive shape homogeneity; see the section comment. -/
def deepHom : PyVal → Bool
  | .vdict kvs => decide ((kvs.map Prod.fst).Nodup) && deepHomK kvs
  | .vlist xs =>
      deepHomL xs &&
      (match xs with
       | [] => true
       | x :: rest => rest.all fun y => calculate_shape y == calculate_shape x)
  | .vtuple xs => deepHomL xs
  | .vty _ => false
  | _ => true

/-- `deepHom` on list elements. -/
def deepHomL : List PyVal → Bool
  | [] => true
  | x :: rest => deepHom x && deepHomL rest

/-- `deepHom` on mapping values. -/
def deepHomK : List (PyVal × PyVal) → Bool
  | [] => true
  | (_, v) :: rest => deepHom v && deepHomK rest
end

/-- In a key-distinct dictionary every entry is found by `dictLookup`. -/
theorem dictLookup_nodup : ∀ kvs : List (PyVal × PyVal),
    (kvs.map Prod.fst).Nodup → ∀ k v, (k, v) ∈ kvs → dictLookup kvs k = some v
  | [], _, k, v, h => by simp at h
  | (k0, v0) :: rest, hnd, k, v, h => by
      simp only [List.map_cons, List.nodup_cons] at hnd
      rcases List.mem_cons.mp h with he | hm
      · rw [Prod.mk.injEq] at he
        obtain ⟨he1, he2⟩ := he
        subst he1; subst he2
        simp [dictLookup]
      · have hk : ¬k0 = k := by
          intro hkk
          subst hkk
          exact hnd.1 (by simpa using List.mem_map_of_mem Prod.fst hm)
        simp only [dictLookup, if_neg hk]
        exact dictLookup_nodup rest hnd.2 k v hm

mutual
/-- Core of C4: under `deepHom`, a value matches its calculated shape. -/
theorem calc_shape_matches : ∀ v s : PyVal, deepHom v = true →
    calculate_shape v = .ok s → is_shaped_exc v s = .ok
  | .vnone, s, _, hc => by
      simp only [calculate_shape, typeOf, pure, Except.pure, Except.ok.injEq] at hc
      subst hc
      rfl
  | .vbool b, s, _, hc => by
      simp only [calculate_shape, typeOf, pure, Except.pure, Except.ok.injEq] at hc
      subst hc
      rfl
  | .vint n, s, _, hc => by
      simp only [calculate_shape, typeOf, pure, Except.pure, Except.ok.injEq] at hc
      subst hc
      rfl
  | .vstr st, s, _, hc => by
      simp only [calculate_shape, typeOf, pure, Except.pure, Except.ok.injEq] at hc
      subst hc
      rfl
  | .vaddr a, s, _, hc => by
      simp only [calculate_shape, typeOf, pure, Except.pure, Except.ok.injEq] at hc
      subst hc
      rfl
  | .vbin b, s, _, hc => by
      simp only [calculate_shape, typeOf, pure, Except.pure, Except.ok.injEq] at hc
      subst hc
      rfl
  | .vset xs, s, _, hc => by
      simp only [calculate_shape, typeOf, pure, Except.pure, Except.ok.injEq] at hc
      subst hc
      rfl
  | .vty t, s, hh, _ => by
      unfold deepHom at hh
      simp at hh
  | .vlist xs, s, hh, hc => by
      simp only [deepHom, Bool.and_eq_true] at hh
      obtain ⟨hhl, hrest⟩ := hh
      cases xs with
      | nil => simp [calculate_shape] at hc
      | cons x rest =>
          simp only [calculate_shape] at hc
          by_cases hom : rest.all (fun y => typeOf y == typeOf x) = true
          · rw [if_pos hom] at hc
            cases hcx : calculate_shape x with
            | error e => rw [hcx] at hc; simp [bind, Except.bind] at hc
            | ok sx =>
                rw [hcx] at hc
                simp only [bind, Except.bind, pure, Except.pure, Except.ok.injEq] at hc
                subst hc
                show seqAll (shapedCheck sx) (x :: rest) = .ok
                refine calcAll_match (x :: rest) sx hhl ?_
                intro y hy
                rcases List.mem_cons.mp hy with hy | hy
                · subst hy; exact hcx
                · have := (List.all_eq_true.mp hrest) y hy
                  have hbe : calculate_shape y = calculate_shape x := eq_of_beq this
                  rw [hbe, hcx]
          · rw [if_neg hom] at hc
            simp at hc
  | .vtuple xs, s, hh, hc => by
      simp only [deepHom] at hh
      simp only [calculate_shape] at hc
      cases hcl : calcShapeList xs with
      | error e => rw [hcl] at hc; simp [bind, Except.bind] at hc
      | ok sxs =>
          rw [hcl] at hc
          simp only [bind, Except.bind, pure, Except.pure, Except.ok.injEq] at hc
          subst hc
          obtain ⟨hlen, hmatch⟩ := calcT_matches xs sxs hh hcl
          show (if xs.length = sxs.length then shapedTuple sxs xs
            else ShapedRes.sizeMismatch) = .ok
          rw [if_pos hlen]
          exact hmatch
  | .vdict kvs, s, hh, hc => by
      simp only [deepHom, Bool.and_eq_true, decide_eq_true_eq] at hh
      obtain ⟨hnd, hhk⟩ := hh
      simp only [calculate_shape] at hc
      cases hck : calcShapeKvs kvs with
      | error e => rw [hck] at hc; simp [bind, Except.bind] at hc
      | ok skvs =>
          rw [hck] at hc
          simp only [bind, Except.bind, pure, Except.pure, Except.ok.injEq] at hc
          subst hc
          show shapedDict skvs kvs = .ok
          exact calcK_matches kvs kvs skvs hhk hck
            (fun k v hkv => dictLookup_nodup kvs hnd k v hkv)

/-- Dictionary entries match their calculated sub-shapes, looked up in
the whole dictionary. -/
theorem calcK_matches : ∀ (whole part : List (PyVal × PyVal))
    (spart : List (PyVal × PyVal)), deepHomK part = true →
    calcShapeKvs part = .ok spart →
    (∀ k v : PyVal, (k, v) ∈ part → dictLookup whole k = some v) →
    shapedDict spart whole = .ok
  | whole, [], spart, _, hc, _ => by
      simp only [calcShapeKvs, pure, Except.pure, Except.ok.injEq] at hc
      subst hc
      rfl
  | whole, (k, v) :: rest, spart, hh, hc, hlook => by
      simp only [deepHomK, Bool.and_eq_true] at hh
      simp only [calcShapeKvs] at hc
      cases hcv : calculate_shape v with
      | error e => rw [hcv] at hc; simp [bind, Except.bind] at hc
      | ok sv =>
          rw [hcv] at hc
          cases hcr : calcShapeKvs rest with
          | error e => rw [hcr] at hc; simp [bind, Except.bind] at hc
          | ok srest =>
              rw [hcr] at hc
              simp only [bind, Except.bind, pure, Except.pure, Except.ok.injEq] at hc
              subst hc
              have hl : dictLookup whole k = some v :=
                hlook k v (List.mem_cons_self _ _)
              simp only [shapedDict, hl]
              rw [show shapedCheck sv v = ShapedRes.ok from
                calc_shape_matches v sv hh.1 hcv]
              exact calcK_matches whole rest srest hh.2 hcr
                (fun k2 v2 h2 => hlook k2 v2 (List.mem_cons_of_mem _ h2))

/-- All elements of a list match the one calculated element shape. -/
theorem calcAll_match : ∀ (ys : List PyVal) (sx : PyVal), deepHomL ys = true →
    (∀ y ∈ ys, calculate_shape y = .ok sx) → seqAll (shapedCheck sx) ys = .ok
  | [], sx, _, _ => rfl
  | y :: ys, sx, hh, hall => by
      simp only [deepHomL, Bool.and_eq_true] at hh
      simp only [seqAll]
      rw [show shapedCheck sx y = ShapedRes.ok from
        calc_shape_matches y sx hh.1 (hall y (List.mem_cons_self _ _))]
      exact calcAll_match ys sx hh.2
        (fun z hz => hall z (List.mem_cons_of_mem _ hz))

/-- Tuple positions match their calculated shapes, with equal arity. -/
theorem calcT_matches : ∀ (xs sxs : List PyVal), deepHomL xs = true →
    calcShapeList xs = .ok sxs → xs.length = sxs.length ∧ shapedTuple sxs xs = .ok
  | [], sxs, _, hc => by
      simp only [calcShapeList, pure, Except.pure, Except.ok.injEq] at hc
      subst hc
      exact ⟨rfl, rfl⟩
  | x :: xs, sxs, hh, hc => by
      simp only [deepHomL, Bool.and_eq_true] at hh
      simp only [calcShapeList] at hc
      cases hcx : calculate_shape x with
      | error e => rw [hcx] at hc; simp [bind, Except.bind] at hc
      | ok sx =>
          rw [hcx] at hc
          cases hcr : calcShapeList xs with
          | error e => rw [hcr] at hc; simp [bind, Except.bind] at hc
          | ok srest =>
              rw [hcr] at hc
              simp only [bind, Except.bind, pure, Except.pure, Except.ok.injEq] at hc
              subst hc
              obtain ⟨hlen, hmatch⟩ := calcT_matches xs srest hh.2 hcr
              constructor
              · simp [hlen]
              · simp only [shapedTuple]
                rw [show shapedCheck sx x = ShapedRes.ok from
                  calc_shape_matches x sx hh.1 hcx]
                exact hmatch
end
/-- C4 (amended).  `matches(v, calculate_shape(v))` holds for every
value on which `calculate_shape` succeeds *and* which is recursively
shape-homogeneous: all elements of every list share one calculated
shape (dictionaries, as in Python, have distinct keys; class-object
values are not message data and are excluded). -/
theorem matches_calculate_shape (v s : PyVal)
    (hh : deepHom v = true) (hc : calculate_shape v = .ok s) :
    is_shaped v s = some true := by
  unfold is_shaped
  rw [calc_shape_matches v s hh hc]

/-- The value `[[1], ["a"]]`: outer-type-homogeneous, inner shapes
differ. -/
def vNested : PyVal := .vlist [.vlist [.vint 1], .vlist [.vstr "a"]]

/-- Counterexample to C4 as stated: `calculate_shape` succeeds on
`[[1], ["a"]]` (the homogeneity check compares only the outer type
`list`), deriving `[[int]]`, but the value does not match that shape,
because `"a"` is not an `int`. -/
theorem matches_calculate_shape_cex :
    calculate_shape vNested = .ok (.vlist [.vlist [.vty .tInt]]) ∧
    is_shaped vNested (.vlist [.vlist [.vty .tInt]]) = some false := by
  refine ⟨by decide, by decide⟩

/-- The nested homogeneous value `[[1], [2]]`. -/
def vNestedOk : PyVal := .vlist [.vlist [.vint 1], .vlist [.vint 2]]

/-- Witness for C4 (amended) on a nested container value. -/
theorem matches_calculate_shape_witness :
    is_shaped vNestedOk (.vlist [.vlist [.vty .tInt]]) = some true :=
  matches_calculate_shape vNestedOk (.vlist [.vlist [.vty .tInt]])
    (by simp [vNestedOk, deepHom, deepHomL, calculate_shape, typeOf,
      bind, Except.bind, pure, Except.pure])
    (by simp [vNestedOk, calculate_shape, typeOf, bind, Except.bind, pure, Except.pure])
/-! ## `Gather` / `wait_all` (`actor.py` lines 586-609)

`Gather.main` spawn-links one child per target, then receives exactly
`len(address_list)` messages matching the exit or exception shapes.  It
stores each received message in a dictionary keyed by the message
address and, once per iteration (`if`, not `while`), flushes the record
of `address_list[current_index]` if already present.  The mailbox below
is the sequence of link messages as the children's completion order
enqueued them; every such message matches one of the two patterns, so
each receive pops the mailbox head. -/

/-- The two receive patterns of `Gather.main`. -/
def gatherPatterns : List PyVal :=
  [.vdict [(.vstr "exit", .vty .tObject), (.vstr "address", .vty .tObject)],
   .vdict [(.vstr "exception", .vty .tObject), (.vstr "address", .vty .tObject)]]

/-- Python dictionary update: rebind an existing key in place, else
append the new binding. -/
def dictUpdate (kvs : List (PyVal × PyVal)) (k v : PyVal) : List (PyVal × PyVal) :=
  match kvs with
  | [] => [(k, v)]
  | (k0, v0) :: rest =>
      if k0 = k then (k, v) :: rest else (k0, v0) :: dictUpdate rest k v

/-- The receive loop of `Gather.main`: one iteration per child.  `none`
marks situations outside the modelled runs (a receive that would block
or crash, a message without an `address` key, or an out-of-range
`current_index`). -/
def gatherLoop (addrList : List AddressObj) :
    Nat → List PyVal → List (PyVal × PyVal) → Nat → List PyVal → Option (List PyVal)
  | 0, _, _, _, results => some results
  | n + 1, mailbox, messages, ci, results =>
      match matchPatterns gatherPatterns mailbox with
      | .found _ msg rest =>
          match msg with
          | .vdict mkvs =>
              match dictLookup mkvs (.vstr "address") with
              | some addrV =>
                  let messages2 := dictUpdate messages addrV msg
                  match addrList.get? ci with
                  | some a =>
                      match dictLookup messages2 (.vaddr a) with
                      | some mm =>
                          gatherLoop addrList n rest messages2 (ci + 1) (results ++ [mm])
                      | none => gatherLoop addrList n rest messages2 ci results
                  | none => none
              | none => none
          | _ => none
      | _ => none

/-- `Gather.main` after the spawn phase: `len(address_list)` receives
against the given mailbox, starting from an empty `messages` dictionary,
`current_index = 0` and empty `results`. -/
def gatherMain (addrList : List AddressObj) (mailbox : List PyVal) : Option (List PyVal) :=
  gatherLoop addrList addrList.length mailbox [] 0 []

/-- First `Gather` child. -/
def gChild0 : ActorRec := ⟨"g-child-0", false, 10⟩

/-- Second `Gather` child. -/
def gChild1 : ActorRec := ⟨"g-child-1", false, 11⟩

/-- Cached address of `gChild0`. -/
def gAddr0 : AddressObj := canonAddr gChild0

/-- Cached address of `gChild1`. -/
def gAddr1 : AddressObj := canonAddr gChild1

/-- C3 failing input: `wait_all` over two normally-completing children
whose completion order is reversed (child 1 first).  The flush step runs
at most once per received message (`if`, not `while`), so after the last
receive the pending records are never flushed: `Gather.main` returns one
record instead of two.  With the children completing in input order the
same loop returns both records in input order. -/
theorem gather_out_of_order_drops_records :
    gatherMain [gAddr0, gAddr1]
        [exitMsg gChild1 (.vint 2), exitMsg gChild0 (.vint 1)] =
      some [exitMsg gChild0 (.vint 1)] ∧
    gatherMain [gAddr0, gAddr1]
        [exitMsg gChild0 (.vint 1), exitMsg gChild1 (.vint 2)] =
      some [exitMsg gChild0 (.vint 1), exitMsg gChild1 (.vint 2)] := by
  refine ⟨by decide, by decide⟩
end Pyact
